import Mathlib

/-!
Shallow embedding of `src/runtime/parser.c` (an incremental LR parse driver)
together with the collaborator interfaces it uses (`length`, `tree`, `stack`,
`lexer`), and theorems settling the frozen claims about it.

The parse driver itself (`shift`, `shift_extra`, `reduce`, `reduce_extra`,
`breakdown_stack`, `resize_error`, `handle_error`, `get_root`,
`ts_parser_parse`) is translated line by line from the C source.  The
collaborators (`runtime/length.h`, `runtime/tree.c`, `runtime/stack.c`,
`runtime/lexer.c`) are not part of the sources, so they are modelled from the
specification, as noted in their doc comments.

Representation choices:
  - machine integers are `Nat` (all the quantities involved are unsigned);
    the one place where C unsigned subtraction could underflow is singled out
    by claim C10 and treated explicitly;
  - the parse stack is a `List` of entries whose HEAD is the TOP of the stack
    (C index `size - 1`); C bottom index 0 is the last list element;
  - C tree mutation (`error->size = ...`, `lookahead->padding = ...`,
    `options = 0`) becomes functional record update; the aliasing between
    `error` and `parser->lookahead` inside `handle_error` is tracked by an
    explicit `aliased` flag;
  - the unbounded C loops (`handle_error`, the main parse loop, the breakdown
    loop) take an explicit fuel argument; running out of fuel is reported as
    a distinct "no result" outcome, never confused with returning.
-/

/-- Modelled from the spec: a two-component length `(chars, extended)`
(`runtime/length.h` is not among the sources).  Addition is componentwise;
subtraction saturates at zero componentwise (the documented choice the spec
asks implementers to make). -/
structure TSLength where
  chars : Nat
  extended : Nat
deriving DecidableEq, Repr

/-- Modelled from the spec: the zero length. -/
def ts_length_zero : TSLength := ⟨0, 0⟩

/-- Modelled from the spec: componentwise addition of lengths. -/
def ts_length_add (a b : TSLength) : TSLength :=
  ⟨a.chars + b.chars, a.extended + b.extended⟩

/-- Modelled from the spec: componentwise (saturating) subtraction. -/
def ts_length_sub (a b : TSLength) : TSLength :=
  ⟨a.chars - b.chars, a.extended - b.extended⟩

/-- Modelled from the spec: equality test on lengths. -/
def ts_length_eq (a b : TSLength) : Bool :=
  a.chars == b.chars && a.extended == b.extended

/-- A concrete syntax tree node (`runtime/tree.h`): symbol, leading padding,
content size, children, and the `extra` / `hidden` bits of the C `options`
flag word. -/
structure TSTree where
  symbol : Nat
  padding : TSLength
  size : TSLength
  children : List TSTree
  extra : Bool
  hidden : Bool
deriving Repr

/-- Modelled from the spec: `total_size = padding + size`. -/
def ts_tree_total_size (t : TSTree) : TSLength :=
  ts_length_add t.padding t.size

/-- Modelled from the spec: test of the `extra` option bit. -/
def ts_tree_is_extra (t : TSTree) : Bool := t.extra

/-- Modelled from the spec: set the `extra` option bit. -/
def ts_tree_set_extra (t : TSTree) : TSTree := { t with extra := true }

/-- Modelled from the spec (`runtime/tree.c` is not among the sources):
`ts_tree_make_node(symbol, child_count, children, hidden)` builds a node whose
`padding` is the first child's padding and whose `size` is the sum of the
children's total sizes minus the first child's padding; a node with no
children has zero padding and size.  The `hidden` flag is stored as given and
the node is not `extra`. -/
def ts_tree_make_node (symbol : Nat) (children : List TSTree) (hidden : Bool) : TSTree :=
  let total := (children.map ts_tree_total_size).foldr ts_length_add ts_length_zero
  match children with
  | [] =>
      { symbol := symbol, padding := ts_length_zero, size := ts_length_zero,
        children := [], extra := false, hidden := hidden }
  | first :: _ =>
      { symbol := symbol, padding := first.padding,
        size := ts_length_sub total first.padding,
        children := children, extra := false, hidden := hidden }

/-- The reserved error pseudo-token symbol (`ts_builtin_sym_error` from
`tree_sitter/parser.h`, a fixed reserved slot per the spec). -/
def ts_builtin_sym_error : Nat := 0

/-- The reserved implicit-root symbol (`ts_builtin_sym_document`, a fixed
reserved slot per the spec). -/
def ts_builtin_sym_document : Nat := 1

/-- The dedicated lex state used while recovering (`ts_lex_state_error`). -/
def ts_lex_state_error : Nat := 0

/-- Modelled from the spec (`runtime/tree.c` is not among the sources):
`ts_tree_make_error(size, padding, lookahead_char)` builds a childless node
with symbol `ts_builtin_sym_error` and the given size and padding. -/
def ts_tree_make_error (size padding : TSLength) : TSTree :=
  { symbol := ts_builtin_sym_error, padding := padding, size := size,
    children := [], extra := false, hidden := false }

/-- One parse-stack entry: the automaton state reached after the node was
pushed, together with the node. -/
structure TSStackEntry where
  state : Nat
  node : TSTree
deriving Repr

/-- The parse stack.  The HEAD of the list is the TOP of the stack; the C
array index `i` (0 = bottom) corresponds to list position `size - 1 - i`. -/
abbrev TSStack := List TSStackEntry

/-- Modelled from the spec: push an entry on top of the stack. -/
def ts_stack_push (s : TSStack) (state : Nat) (node : TSTree) : TSStack :=
  ⟨state, node⟩ :: s

/-- Modelled from the spec (`runtime/stack.c` is not among the sources): the
state of the top entry; an empty stack reports the start state 0. -/
def ts_stack_top_state (s : TSStack) : Nat :=
  match s with
  | [] => 0
  | e :: _ => e.state

/-- Modelled from the spec: the node of the top entry, if any. -/
def ts_stack_top_node (s : TSStack) : Option TSTree :=
  match s with
  | [] => none
  | e :: _ => some e.node

/-- Modelled from the spec: `ts_stack_shrink(stack, n)` keeps the bottom `n`
entries (here: drops `length - n` entries from the top). -/
def ts_stack_shrink (s : TSStack) (n : Nat) : TSStack :=
  s.drop (s.length - n)

/-- Modelled from the spec: the aggregate right position of the stack, the sum
of the total sizes of all the nodes on it. -/
def ts_stack_right_position (s : TSStack) : TSLength :=
  (s.map (fun e => ts_tree_total_size e.node)).foldr ts_length_add ts_length_zero

/-- Modelled from the spec: the input is a sequence of characters (the C
`TSInput` pull-based byte source, with the lexer doing the decoding). -/
structure TSInput where
  chars : List Char

/-- Modelled from the spec (`runtime/lexer.c` is not among the sources): the
lexer exposes its input, a current cursor position and the start position of
the most recently lexed token. -/
structure TSLexer where
  input : TSInput
  current_position : TSLength
  token_start_position : TSLength

/-- Modelled from the spec: a fresh lexer. -/
def ts_lexer_make : TSLexer :=
  { input := ⟨[]⟩, current_position := ts_length_zero,
    token_start_position := ts_length_zero }

/-- Modelled from the spec: reset the lexer cursor to a position. -/
def ts_lexer_reset (l : TSLexer) (pos : TSLength) : TSLexer :=
  { l with current_position := pos, token_start_position := pos }

/-- Modelled from the spec: the single-character advance used during
recovery; it reports `false` (without moving) exactly when the cursor is
already at the end of the input. -/
def ts_lexer_advance (l : TSLexer) : TSLexer × Bool :=
  if l.current_position.chars < l.input.chars.length then
    ({ l with current_position := ts_length_add l.current_position ⟨1, 1⟩ }, true)
  else (l, false)

/-- A parse action (`TSParseAction`).  `unknown` stands for a table cell whose
action type is none of the recognized enum values; it is what the `default`
case of the driver's dispatch reacts to. -/
inductive TSParseAction where
  | shift (to_state : Nat)
  | shiftExtra
  | reduce (symbol : Nat) (child_count : Nat)
  | reduceExtra (symbol : Nat)
  | accept
  | error
  | unknown
deriving DecidableEq, Repr

/-- A language table (`TSLanguage`).  The dense row-major action array is
modelled as a function of state and symbol; `lex_fn` consumes characters from
the lexer and returns the updated lexer and the lexed token. -/
structure TSLanguage where
  symbol_count : Nat
  parse_table : Nat → Nat → TSParseAction
  lex_states : Nat → Nat
  hidden_symbol_flags : Nat → Bool
  lex_fn : TSLexer → Nat → TSLexer × TSTree

/-- The parser state (`TSParser`). -/
structure TSParser where
  language : TSLanguage
  stack : TSStack
  lexer : TSLexer
  lookahead : Option TSTree
  next_lookahead : Option TSTree
  debug : Bool

/-- C line 20: `action_for(lang, state, sym)` looks up the action table. -/
def action_for (lang : TSLanguage) (state : Nat) (sym : Nat) : TSParseAction :=
  lang.parse_table state sym

/-- C line 25: `lex` runs the language's lex function in the given lex state,
storing the produced token in the lookahead slot. -/
def lex (p : TSParser) (lex_state : Nat) : TSParser :=
  let r := p.language.lex_fn p.lexer lex_state
  { p with lexer := r.1, lookahead := some r.2 }

/-- C line 78: `shift` pushes the lookahead under `parse_state` — or under the
current top-of-stack state when the lookahead is `extra` — and moves
`next_lookahead` into `lookahead`.  (With no lookahead the C code would
dereference null; that situation is unreachable from the driver and modelled
as a no-op.) -/
def shift (p : TSParser) (parse_state : Nat) : TSParser :=
  match p.lookahead with
  | none => p
  | some la =>
    let st := if ts_tree_is_extra la then ts_stack_top_state p.stack else parse_state
    { p with stack := ts_stack_push p.stack st la,
             lookahead := p.next_lookahead,
             next_lookahead := none }

/-- C line 86: `shift_extra` marks the lookahead `extra` and shifts with
target state 0. -/
def shift_extra (p : TSParser) : TSParser :=
  match p.lookahead with
  | none => p
  | some la => shift { p with lookahead := some (ts_tree_set_extra la) } 0

/-- C lines 100–106, the walk at the start of `reduce`: starting from the
nominal child count, walk the stack downward from the top (`nodes` is the
stack's node list, top first; `i` is the loop counter, `cc` the running
count); every `extra` node encountered increments the count, and the walk
stops as soon as the count equals the stack size.  The `[]` case corresponds
to the C loop running off the end of the entry array, which cannot happen
when the nominal count is at most the stack size (claim C10). -/
def reduce_walk (size : Nat) : List TSTree → Nat → Nat → Nat
  | [], _, cc => cc
  | node :: rest, i, cc =>
    if i < cc then
      if cc = size then cc
      else reduce_walk size rest (i + 1) (if ts_tree_is_extra node then cc + 1 else cc)
    else cc

/-- The node list of a stack, top entry first. -/
def stack_nodes (s : TSStack) : List TSTree := s.map (fun e => e.node)

/-- C line 91: `reduce(symbol, child_count)` — save the lookahead into
`next_lookahead`, absorb extras into the child count, detach that many top
entries as the children (bottom-to-top order) of a fresh node whose hidden
flag comes from `hidden_symbol_flags`, make that node the lookahead and
shrink the stack. -/
def reduce (p : TSParser) (symbol : Nat) (child_count : Nat) : TSParser :=
  let stack := p.stack
  let cc := reduce_walk stack.length (stack_nodes stack) 0 child_count
  let children := ((stack_nodes stack).take cc).reverse
  let hidden := p.language.hidden_symbol_flags symbol
  let node := ts_tree_make_node symbol children hidden
  { p with next_lookahead := p.lookahead,
           lookahead := some node,
           stack := ts_stack_shrink stack (stack.length - cc) }

/-- C line 118: `reduce_extra` reduces with nominal child count 1 and marks
the produced node `extra`. -/
def reduce_extra (p : TSParser) (symbol : Nat) : TSParser :=
  let p' := reduce p symbol 1
  { p' with lookahead := p'.lookahead.map ts_tree_set_extra }

/-- C line 71: `resize_error` sets the error node's size to the token start
position minus the stack's right position, minus the node's own padding. -/
def resize_error (p : TSParser) (error : TSTree) : TSTree :=
  { error with
      size := ts_length_sub
                (ts_length_sub p.lexer.token_start_position
                               (ts_stack_right_position p.stack))
                error.padding }

/-- A ghost record of one child re-push performed by `breakdown_stack`
(C lines 52–62): the stack as it was at the moment of the push, the popped
parent entry, the child, and the state the child was pushed under. -/
structure PutBackEvent where
  stackBefore : TSStack
  parent : TSStackEntry
  child : TSTree
  pushedState : Nat

/-- C lines 52–62, the inner loop of `breakdown_stack`: push the popped
parent's children back, left to right, while the running right position is
still left of the edit position.  Each child is pushed under the shift
action's target state when the table's action for (current top state, child
symbol) is a Shift, and under that same current top-of-stack state otherwise.
Alongside the stack and position this returns the ghost trace of pushes. -/
def put_back_children (lang : TSLanguage) (edit_pos : Nat) (parent : TSStackEntry) :
    List TSTree → TSStack → TSLength → TSStack × TSLength × List PutBackEvent
  | [], stack, pos => (stack, pos, [])
  | child :: rest, stack, pos =>
    if pos.chars < edit_pos then
      let state := ts_stack_top_state stack
      let action := action_for lang state child.symbol
      let next_state := match action with
        | TSParseAction.shift s => s
        | _ => state
      let r := put_back_children lang edit_pos parent rest
                 (ts_stack_push stack next_state child)
                 (ts_length_add pos (ts_tree_total_size child))
      (r.1, r.2.1, ⟨stack, parent, child, next_state⟩ :: r.2.2)
    else (stack, pos, [])

/-- C lines 38–65, the outer loop of `breakdown_stack`: repeatedly pop the
top node — stopping on an empty stack, or when the right position is left of
the edit and the top node is a leaf — subtract its total size from the
position, and put its children back.  `fuel` bounds the number of pops; the
loop's own termination argument (each pop replaces a node by a subset of its
proper children) is outside the embedding. -/
def breakdown_loop (lang : TSLanguage) (edit_pos : Nat) :
    Nat → TSStack → TSLength → TSStack × TSLength × List PutBackEvent
  | 0, stack, pos => (stack, pos, [])
  | _ + 1, [], pos => ([], pos, [])
  | fuel + 1, entry :: rest, pos =>
    if pos.chars < edit_pos ∧ entry.node.children.isEmpty then
      (entry :: rest, pos, [])
    else
      let pos1 := ts_length_sub pos (ts_tree_total_size entry.node)
      let r1 := put_back_children lang edit_pos entry entry.node.children rest pos1
      let r2 := breakdown_loop lang edit_pos fuel r1.1 r1.2.1
      (r2.1, r2.2.1, r1.2.2 ++ r2.2.2)

/-- C line 29: `breakdown_stack` — with no edit, clear the stack and resume at
position zero; with an edit, run the breakdown loop from the stack's right
position and resume at the resulting position (the ghost trace is dropped). -/
def breakdown_stack (bfuel : Nat) (p : TSParser) (edit : Option Nat) :
    TSParser × TSLength :=
  match edit with
  | none => ({ p with stack := ts_stack_shrink p.stack 0 }, ts_length_zero)
  | some edit_pos =>
    let pos := ts_stack_right_position p.stack
    let r := breakdown_loop p.language edit_pos bfuel p.stack pos
    ({ p with stack := r.1 }, r.2.1)

/-- C lines 133–155, the stack scan of `handle_error`: walk the stack from the
top looking for an entry whose state has a Shift action on
`ts_builtin_sym_error` leading to a state whose action on the lookahead's
symbol is not Error.  Returns the number of entries strictly above the found
entry together with the shift target, or `none`. -/
def recover_scan (lang : TSLanguage) (la_sym : Nat) : TSStack → Option (Nat × Nat)
  | [] => none
  | e :: rest =>
    match action_for lang e.state ts_builtin_sym_error with
    | TSParseAction.shift s' =>
      if action_for lang s' la_sym = TSParseAction.error then
        (recover_scan lang la_sym rest).map (fun r => (r.1 + 1, r.2))
      else some (0, s')
    | _ => (recover_scan lang la_sym rest).map (fun r => (r.1 + 1, r.2))

/-- C lines 127–181, the loop of `handle_error`.  `error` is the node retained
at entry (`error = parser->lookahead` in C); `aliased` records whether the
parser's lookahead is still that very node, so that the C pointer aliasing —
clearing the lookahead's padding also clears the error node's padding on the
first iteration — is reproduced.  Each iteration scans the stack; on success
it truncates the stack just above the found entry, clears the lookahead's
padding, resizes the error node against the truncated stack, pushes it under
the shift target and returns `true`.  Otherwise it re-lexes in the error lex
state; if the lexer did not move and the forced single-character advance
fails (end of input), it resizes the error node against the unchanged stack,
pushes it at state 0 and returns `false`; else it loops.  `none` means the
fuel ran out before the C loop would have returned. -/
def handle_error_loop : Nat → TSParser → TSTree → Bool → Option (Bool × TSParser)
  | 0, _, _, _ => none
  | fuel + 1, p, error, aliased =>
    match p.lookahead with
    | none => none
    | some la =>
      match recover_scan p.language la.symbol p.stack with
      | some ks =>
        let stack1 := ts_stack_shrink p.stack (p.stack.length - ks.1)
        let la1 := { la with padding := ts_length_zero }
        let error1 := if aliased then la1 else error
        let p1 := { p with stack := stack1, lookahead := some la1 }
        let error2 := resize_error p1 error1
        some (true, { p1 with stack := ts_stack_push stack1 ks.2 error2,
                              lookahead := some (if aliased then error2 else la1) })
      | none =>
        let prev := p.lexer.current_position
        let p1 := lex p ts_lex_state_error
        if ts_length_eq p1.lexer.current_position prev then
          let adv := ts_lexer_advance p1.lexer
          let p2 := { p1 with lexer := adv.1 }
          if adv.2 then handle_error_loop fuel p2 error false
          else
            let error1 := resize_error p2 error
            some (false, { p2 with stack := ts_stack_push p2.stack 0 error1 })
        else handle_error_loop fuel p1 error false

/-- C line 123: `handle_error` retains the current lookahead as the error
node (initially aliased with the lookahead slot) and runs the recovery
loop. -/
def handle_error (rfuel : Nat) (p : TSParser) : Option (Bool × TSParser) :=
  match p.lookahead with
  | none => none
  | some err => handle_error_loop rfuel p err true

/-- C line 184: `get_root` — if the stack is empty, push `(0, empty error
node)`; reduce the whole stack into a `ts_builtin_sym_document` node; clear
the produced node's option bits (`options = 0`, i.e. both `extra` and
`hidden`); shift it with target state 0; return the final parser together
with the node of stack entry 0 (the bottom — and only — entry). -/
def get_root (p : TSParser) : TSParser × Option TSTree :=
  let p0 := if p.stack.length = 0 then
      { p with stack := ts_stack_push p.stack 0
                 (ts_tree_make_error ts_length_zero ts_length_zero) }
    else p
  let p1 := reduce p0 ts_builtin_sym_document p0.stack.length
  let p2 := { p1 with lookahead :=
                p1.lookahead.map (fun t => { t with extra := false, hidden := false }) }
  let p3 := shift p2 0
  (p3, (p3.stack.getLast?).map (fun e => e.node))

/-- The outcome of one iteration of the parse loop: continue with a new
parser state, return a value to the caller (`none` models returning the C
null pointer), or run out of recovery fuel. -/
inductive StepResult where
  | next (p : TSParser)
  | ret (t : Option TSTree)
  | stuck

/-- C lines 223–273, one iteration of the main loop of `ts_parser_parse`:
read the top state; lex into the lookahead slot if it is empty; look up the
action for (state, lookahead symbol) and dispatch.  A Shift action on the
error symbol, and an Error action, invoke `handle_error`, continuing on
recovery success and finalizing via `get_root` on failure; Accept finalizes;
an unrecognized action type returns null. -/
def parse_step (rfuel : Nat) (p0 : TSParser) : StepResult :=
  let state := ts_stack_top_state p0.stack
  let p := match p0.lookahead with
    | none => lex p0 (p0.language.lex_states state)
    | some _ => p0
  match p.lookahead with
  | none => StepResult.stuck
  | some la =>
    match action_for p.language state la.symbol with
    | TSParseAction.shift s =>
      if la.symbol = ts_builtin_sym_error then
        match handle_error rfuel p with
        | some (true, p') => StepResult.next p'
        | some (false, p') => StepResult.ret (get_root p').2
        | none => StepResult.stuck
      else StepResult.next (shift p s)
    | TSParseAction.shiftExtra => StepResult.next (shift_extra p)
    | TSParseAction.reduce sym cnt => StepResult.next (reduce p sym cnt)
    | TSParseAction.reduceExtra sym => StepResult.next (reduce_extra p sym)
    | TSParseAction.accept => StepResult.ret (get_root p).2
    | TSParseAction.error =>
      match handle_error rfuel p with
      | some (true, p') => StepResult.next p'
      | some (false, p') => StepResult.ret (get_root p').2
      | none => StepResult.stuck
    | TSParseAction.unknown => StepResult.ret none

/-- Iterate `parse_step` at most `steps` times.  `some r` means the C
function returned `r` (`r = none` being the null pointer); `none` means it
was still looping (or out of recovery fuel) after `steps` iterations. -/
def parse_loop (rfuel : Nat) : Nat → TSParser → Option (Option TSTree)
  | 0, _ => none
  | steps + 1, p =>
    match parse_step rfuel p with
    | StepResult.next p' => parse_loop rfuel steps p'
    | StepResult.ret t => some t
    | StepResult.stuck => none

/-- C line 214: `ts_parser_parse` — clear both lookahead slots, break the
stack down to the edit (clearing it entirely when there is no edit), point
the lexer at the input, reset it to the resume position, and run the parse
loop. -/
def ts_parser_parse (steps rfuel bfuel : Nat) (p : TSParser) (input : TSInput)
    (edit : Option Nat) : Option (Option TSTree) :=
  let p0 := { p with lookahead := none, next_lookahead := none }
  let r := breakdown_stack bfuel p0 edit
  let p1 := { r.1 with lexer := ts_lexer_reset { r.1.lexer with input := input } r.2 }
  parse_loop rfuel steps p1

/-- C line 199: `ts_parser_make`. -/
def ts_parser_make (language : TSLanguage) : TSParser :=
  { language := language, stack := [], lexer := ts_lexer_make,
    lookahead := none, next_lookahead := none, debug := false }

/-- The parse call returns (with some step, recovery and breakdown budgets):
used to state termination and its failure. -/
def parse_returns (p : TSParser) (input : TSInput) (edit : Option Nat) : Prop :=
  ∃ steps rfuel bfuel r, ts_parser_parse steps rfuel bfuel p input edit = some r

/-! ### Helper lemmas about the reduce walk and the stack -/

/-- The number of `extra` nodes in a list (used to state what the walk at the
start of `reduce` computes). -/
def count_extras (l : List TSTree) : Nat := (l.filter ts_tree_is_extra).length

theorem count_extras_nil : count_extras [] = 0 := rfl

theorem count_extras_cons (t : TSTree) (l : List TSTree) :
    count_extras (t :: l) = (if ts_tree_is_extra t then 1 else 0) + count_extras l := by
  simp only [count_extras, List.filter_cons]
  split
  · simp [Nat.add_comm]
  · simp

theorem stack_nodes_length (s : TSStack) : (stack_nodes s).length = s.length := by
  simp [stack_nodes]

theorem ts_stack_shrink_drop (s : TSStack) (k : Nat) (h : k ≤ s.length) :
    ts_stack_shrink s (s.length - k) = s.drop k := by
  unfold ts_stack_shrink
  congr 1
  omega

theorem make_node_symbol (sym : Nat) (ch : List TSTree) (hid : Bool) :
    (ts_tree_make_node sym ch hid).symbol = sym := by
  cases ch <;> rfl

theorem make_node_children (sym : Nat) (ch : List TSTree) (hid : Bool) :
    (ts_tree_make_node sym ch hid).children = ch := by
  cases ch <;> rfl

theorem make_node_hidden (sym : Nat) (ch : List TSTree) (hid : Bool) :
    (ts_tree_make_node sym ch hid).hidden = hid := by
  cases ch <;> rfl

/-- Characterization of the extra-absorbing walk of `reduce` (C lines
100–106): starting at counter `i` and running count `cc` with `cc ≤ size`,
the walk's result `k` satisfies `cc ≤ k ≤ size`, and `k` equals `cc` plus the
number of `extra` nodes among the `j` entries it examined, where either the
walk examined exactly `k - i` entries (no early stop) or it stopped because
the count reached the stack size. -/
theorem reduce_walk_char (size : Nat) (nodes : List TSTree) :
    ∀ i cc, i ≤ cc → cc ≤ size → size ≤ i + nodes.length →
      cc ≤ reduce_walk size nodes i cc ∧
      reduce_walk size nodes i cc ≤ size ∧
      ∃ j, j ≤ nodes.length ∧
        reduce_walk size nodes i cc = cc + count_extras (nodes.take j) ∧
        (i + j = reduce_walk size nodes i cc ∨ reduce_walk size nodes i cc = size) := by
  induction nodes with
  | nil =>
    intro i cc hic hcs hsn
    simp only [List.length_nil, Nat.add_zero] at hsn
    have hccs : cc = size := by omega
    simp only [reduce_walk]
    exact ⟨Nat.le_refl _, hcs, 0, Nat.zero_le _, by simp [count_extras_nil], Or.inr hccs⟩
  | cons n rest ih =>
    intro i cc hic hcs hsn
    by_cases hlt : i < cc
    · by_cases heq : cc = size
      · simp only [reduce_walk, if_pos hlt, if_pos heq]
        exact ⟨Nat.le_refl _, hcs, 0, Nat.zero_le _, by simp [count_extras_nil], Or.inr heq⟩
      · have hrw : reduce_walk size (n :: rest) i cc =
            reduce_walk size rest (i + 1) (if ts_tree_is_extra n then cc + 1 else cc) := by
          simp only [reduce_walk, if_pos hlt, if_neg heq]
        have hlt2 : cc < size := Nat.lt_of_le_of_ne hcs heq
        have hcc1 : cc ≤ (if ts_tree_is_extra n then cc + 1 else cc) := by split <;> omega
        have hcc2 : (if ts_tree_is_extra n then cc + 1 else cc) ≤ size := by split <;> omega
        have hcc3 : i + 1 ≤ (if ts_tree_is_extra n then cc + 1 else cc) := by split <;> omega
        have hsn' : size ≤ (i + 1) + rest.length := by
          simp only [List.length_cons] at hsn; omega
        obtain ⟨h1, h2, j, hj, hje, hjd⟩ :=
          ih (i + 1) (if ts_tree_is_extra n then cc + 1 else cc) hcc3 hcc2 hsn'
        refine ⟨?_, ?_, j + 1, ?_, ?_, ?_⟩
        · rw [hrw]; exact Nat.le_trans hcc1 h1
        · rw [hrw]; exact h2
        · simp only [List.length_cons]; omega
        · rw [hrw, hje, List.take_succ_cons, count_extras_cons]
          rcases Bool.eq_false_or_eq_true (ts_tree_is_extra n) with hx | hx <;>
            rw [hx] <;> simp <;> omega
        · rw [hrw]
          rcases hjd with hjd | hjd
          · exact Or.inl (by omega)
          · exact Or.inr hjd
    · have hie : i = cc := by omega
      simp only [reduce_walk, if_neg hlt]
      exact ⟨Nat.le_refl _, hcs, 0, Nat.zero_le _, by simp [count_extras_nil],
        Or.inl (by omega)⟩

/-- When `reduce` is invoked with nominal count equal to the stack size (as
`get_root` does) the walk stops immediately and returns the full size. -/
theorem reduce_walk_full (l : List TSTree) :
    reduce_walk l.length l 0 l.length = l.length := by
  cases l with
  | nil => rfl
  | cons a t => simp [reduce_walk]

/-! ### Claim C1: `reduce` -/

/-- C1.  For a call `reduce(symbol, cnt)` on a stack of size at least `cnt`,
with a lookahead present and `next_lookahead` empty at that point: the
effective child count `k` produced by the downward walk equals the nominal
count plus one per `extra` node encountered (the walk examined exactly `j`
top entries, where `j = k` unless the walk stopped because the count reached
the stack size); exactly the `k` top entries are detached and become the new
node's children in bottom-to-top order; the new node's hidden flag is
`hidden_symbol_flags[symbol]`; the previous lookahead is saved into
`next_lookahead`; and the new node becomes the current lookahead. -/
theorem C1_reduce (p : TSParser) (symbol cnt : Nat) (la : TSTree)
    (hcnt : cnt ≤ p.stack.length)
    (hla : p.lookahead = some la)
    (hnla : p.next_lookahead = none) :
    ∃ k, k = reduce_walk p.stack.length (stack_nodes p.stack) 0 cnt ∧
      k ≤ p.stack.length ∧
      (∃ j, j ≤ p.stack.length ∧
        k = cnt + count_extras ((stack_nodes p.stack).take j) ∧
        (j = k ∨ k = p.stack.length)) ∧
      (reduce p symbol cnt).stack = p.stack.drop k ∧
      (reduce p symbol cnt).next_lookahead = some la ∧
      ∃ nd, (reduce p symbol cnt).lookahead = some nd ∧
        nd.symbol = symbol ∧
        nd.hidden = p.language.hidden_symbol_flags symbol ∧
        nd.children = ((stack_nodes p.stack).take k).reverse := by
  obtain ⟨hk1, hk2, j, hj, hje, hjd⟩ :=
    reduce_walk_char p.stack.length (stack_nodes p.stack) 0 cnt (Nat.zero_le _) hcnt
      (by rw [stack_nodes_length]; omega)
  refine ⟨reduce_walk p.stack.length (stack_nodes p.stack) 0 cnt, rfl, hk2,
    ⟨j, by rw [← stack_nodes_length p.stack]; exact hj, hje, by simpa using hjd⟩,
    ?_, ?_, ?_⟩
  · show ts_stack_shrink p.stack (p.stack.length - _) = _
    exact ts_stack_shrink_drop _ _ hk2
  · show p.lookahead = some la
    exact hla
  · exact ⟨_, rfl, make_node_symbol _ _ _, make_node_hidden _ _ _,
      make_node_children _ _ _⟩

/-- Sample material used by the witnesses below. -/
def sampleLeaf (s n : Nat) : TSTree :=
  { symbol := s, padding := ts_length_zero, size := ⟨n, n⟩,
    children := [], extra := false, hidden := false }

/-- A sample `extra` (trivia) leaf. -/
def sampleExtra (s n : Nat) : TSTree := { sampleLeaf s n with extra := true }

/-- A sample language whose table is everywhere Error and whose lexer emits a
fixed zero-width token. -/
def sampleLang : TSLanguage :=
  { symbol_count := 10, parse_table := fun _ _ => TSParseAction.error,
    lex_states := fun _ => 0, hidden_symbol_flags := fun s => decide (s = 4),
    lex_fn := fun l _ => (l, sampleLeaf 9 0) }

/-- A sample parser mid-parse: an `extra` node on top of two ordinary ones,
with a pending lookahead. -/
def sampleParserA : TSParser :=
  { language := sampleLang,
    stack := [⟨3, sampleExtra 2 1⟩, ⟨2, sampleLeaf 1 1⟩, ⟨1, sampleLeaf 1 1⟩],
    lexer := ts_lexer_make, lookahead := some (sampleLeaf 7 1),
    next_lookahead := none, debug := false }

/-- Witness for C1 at a concrete reduction that absorbs one extra node. -/
theorem C1_reduce_witness :
    (1 ≤ sampleParserA.stack.length ∧
      sampleParserA.lookahead = some (sampleLeaf 7 1) ∧
      sampleParserA.next_lookahead = none) ∧
    (∃ k, k = reduce_walk sampleParserA.stack.length (stack_nodes sampleParserA.stack) 0 1 ∧
      k ≤ sampleParserA.stack.length ∧
      (∃ j, j ≤ sampleParserA.stack.length ∧
        k = 1 + count_extras ((stack_nodes sampleParserA.stack).take j) ∧
        (j = k ∨ k = sampleParserA.stack.length)) ∧
      (reduce sampleParserA 4 1).stack = sampleParserA.stack.drop k ∧
      (reduce sampleParserA 4 1).next_lookahead = some (sampleLeaf 7 1) ∧
      ∃ nd, (reduce sampleParserA 4 1).lookahead = some nd ∧
        nd.symbol = 4 ∧
        nd.hidden = sampleParserA.language.hidden_symbol_flags 4 ∧
        nd.children = ((stack_nodes sampleParserA.stack).take k).reverse) :=
  ⟨⟨by decide, rfl, rfl⟩, C1_reduce sampleParserA 4 1 (sampleLeaf 7 1) (by decide) rfl rfl⟩

/-! ### Claim C10: bounds of the walk in `reduce` -/

/-- C10.  When the nominal child count is at most the stack size, the
effective count `k` never exceeds the stack size, the C computation
`start_index = size - k` does not underflow (`(size - k) + k = size`), every
child access hits a real entry (`take k` yields exactly `k` nodes), and the
stack shrinks to exactly `size - k` entries.  The final conjunct shows the
precondition is genuinely needed: the walk's guard checks only for EQUALITY
of count and size, so with a nominal count exceeding the stack size (here 2
on a one-entry stack) the walk's result exceeds the size and the C unsigned
subtraction would underflow. -/
theorem C10_reduce_inbounds (p : TSParser) (symbol cnt : Nat)
    (hcnt : cnt ≤ p.stack.length) :
    ∃ k, k = reduce_walk p.stack.length (stack_nodes p.stack) 0 cnt ∧
      k ≤ p.stack.length ∧
      (p.stack.length - k) + k = p.stack.length ∧
      ((stack_nodes p.stack).take k).length = k ∧
      (reduce p symbol cnt).stack.length = p.stack.length - k ∧
      (reduce_walk 1 (stack_nodes [⟨0, sampleLeaf 5 1⟩]) 0 2 = 2 ∧
        ¬ (2 : Nat) ≤ 1) := by
  obtain ⟨hk1, hk2, _⟩ :=
    reduce_walk_char p.stack.length (stack_nodes p.stack) 0 cnt (Nat.zero_le _) hcnt
      (by rw [stack_nodes_length]; omega)
  refine ⟨reduce_walk p.stack.length (stack_nodes p.stack) 0 cnt, rfl, hk2,
    by omega, ?_, ?_, by decide, by decide⟩
  · rw [List.length_take, stack_nodes_length]
    omega
  · show (ts_stack_shrink p.stack (p.stack.length - _)).length = _
    rw [ts_stack_shrink_drop _ _ hk2, List.length_drop]

/-- Witness for C10 at a concrete reduction. -/
theorem C10_reduce_inbounds_witness :
    (1 ≤ sampleParserA.stack.length) ∧
    (∃ k, k = reduce_walk sampleParserA.stack.length (stack_nodes sampleParserA.stack) 0 1 ∧
      k ≤ sampleParserA.stack.length ∧
      (sampleParserA.stack.length - k) + k = sampleParserA.stack.length ∧
      ((stack_nodes sampleParserA.stack).take k).length = k ∧
      (reduce sampleParserA 4 1).stack.length = sampleParserA.stack.length - k ∧
      (reduce_walk 1 (stack_nodes [⟨0, sampleLeaf 5 1⟩]) 0 2 = 2 ∧
        ¬ (2 : Nat) ≤ 1)) :=
  ⟨by decide, C10_reduce_inbounds sampleParserA 4 1 (by decide)⟩

/-! ### Claim C7: shifting an extra lookahead -/

/-- C7.  If the current lookahead is marked `extra`, `shift` pushes it under
the current top-of-stack state instead of the action's target state, so the
top state is unchanged; `shift_extra` marks the lookahead `extra` and shifts
(with target 0), so the effective push state is likewise the current top
state and the top state is unchanged. -/
theorem C7_shift_extra (p : TSParser) (la : TSTree)
    (hla : p.lookahead = some la) :
    (la.extra = true → ∀ s,
      (shift p s).stack = ts_stack_push p.stack (ts_stack_top_state p.stack) la ∧
      ts_stack_top_state (shift p s).stack = ts_stack_top_state p.stack) ∧
    ((shift_extra p).stack =
        ts_stack_push p.stack (ts_stack_top_state p.stack) (ts_tree_set_extra la) ∧
      ts_stack_top_state (shift_extra p).stack = ts_stack_top_state p.stack) := by
  constructor
  · intro hx s
    have h1 : (shift p s).stack =
        ts_stack_push p.stack (ts_stack_top_state p.stack) la := by
      simp [shift, hla, ts_tree_is_extra, hx]
    exact ⟨h1, by rw [h1]; rfl⟩
  · have h2 : (shift_extra p).stack =
        ts_stack_push p.stack (ts_stack_top_state p.stack) (ts_tree_set_extra la) := by
      simp [shift_extra, hla, shift, ts_tree_is_extra, ts_tree_set_extra]
    exact ⟨h2, by rw [h2]; rfl⟩

/-- Witness for C7: shifting an extra token on a concrete stack pushes under
the current top state 3 regardless of the action's target state. -/
theorem C7_shift_extra_witness :
    (sampleParserA.lookahead = some (sampleLeaf 7 1)) ∧
    (((sampleLeaf 7 1).extra = true → ∀ s,
      (shift sampleParserA s).stack =
        ts_stack_push sampleParserA.stack (ts_stack_top_state sampleParserA.stack)
          (sampleLeaf 7 1) ∧
      ts_stack_top_state (shift sampleParserA s).stack =
        ts_stack_top_state sampleParserA.stack) ∧
    ((shift_extra sampleParserA).stack =
        ts_stack_push sampleParserA.stack (ts_stack_top_state sampleParserA.stack)
          (ts_tree_set_extra (sampleLeaf 7 1)) ∧
      ts_stack_top_state (shift_extra sampleParserA).stack =
        ts_stack_top_state sampleParserA.stack)) :=
  ⟨rfl, C7_shift_extra sampleParserA (sampleLeaf 7 1) rfl⟩

/-! ### Claim C8: `get_root` -/

/-- C8.  `get_root` pushes `(0, empty error node)` when the stack is empty,
reduces the entire stack into a single `ts_builtin_sym_document` node whose
children are the stacked nodes bottom-to-top, clears the node's option flag
bits (`extra` in particular; `hidden` is cleared too), shifts it with target
state 0, and returns the node of the single remaining stack entry (entry 0)
as the root. -/
theorem C8_get_root (p : TSParser) :
    ∃ doc, (get_root p).2 = some doc ∧
      (get_root p).1.stack = [⟨0, doc⟩] ∧
      doc.symbol = ts_builtin_sym_document ∧
      doc.extra = false ∧
      doc.hidden = false ∧
      doc.children =
        (if p.stack.isEmpty
          then [ts_tree_make_error ts_length_zero ts_length_zero]
          else (stack_nodes p.stack).reverse) := by
  by_cases hemp : p.stack.isEmpty = true
  · have hst : p.stack = [] := by
      cases hq : p.stack with
      | nil => rfl
      | cons a t => rw [hq] at hemp; simp [List.isEmpty] at hemp
    refine ⟨{ symbol := ts_builtin_sym_document, padding := ts_length_zero,
              size := ts_length_zero,
              children := [ts_tree_make_error ts_length_zero ts_length_zero],
              extra := false, hidden := false }, ?_, ?_, rfl, rfl, rfl, ?_⟩
    · simp [get_root, hst, reduce, reduce_walk, stack_nodes, ts_stack_shrink,
        ts_stack_push, ts_tree_make_node, ts_tree_make_error, shift,
        ts_tree_is_extra, ts_length_zero, ts_length_add, ts_length_sub,
        ts_tree_total_size, ts_builtin_sym_document, ts_builtin_sym_error]
    · simp [get_root, hst, reduce, reduce_walk, stack_nodes, ts_stack_shrink,
        ts_stack_push, ts_tree_make_node, ts_tree_make_error, shift,
        ts_tree_is_extra, ts_length_zero, ts_length_add, ts_length_sub,
        ts_tree_total_size, ts_builtin_sym_document, ts_builtin_sym_error]
    · simp [hemp]
  · have hemp' : p.stack.isEmpty = false := by
      cases hq : p.stack.isEmpty with
      | false => rfl
      | true => exact absurd hq hemp
    have hlen : p.stack.length ≠ 0 := by
      cases hq : p.stack with
      | nil => rw [hq] at hemp'; simp [List.isEmpty] at hemp'
      | cons a t => simp
    have hwalk : reduce_walk p.stack.length (stack_nodes p.stack) 0 p.stack.length =
        p.stack.length := by
      rw [← stack_nodes_length p.stack]
      exact reduce_walk_full (stack_nodes p.stack)
    have htake : List.take
        (reduce_walk p.stack.length (stack_nodes p.stack) 0 p.stack.length)
        (stack_nodes p.stack) = stack_nodes p.stack := by
      rw [hwalk, ← stack_nodes_length p.stack, List.take_length]
    have hdrop : ts_stack_shrink p.stack (p.stack.length -
        reduce_walk p.stack.length (stack_nodes p.stack) 0 p.stack.length) = [] := by
      rw [hwalk, ts_stack_shrink_drop _ _ (Nat.le_refl _), List.drop_length]
    have hred : reduce p ts_builtin_sym_document p.stack.length =
        { p with next_lookahead := p.lookahead,
                 lookahead := some (ts_tree_make_node ts_builtin_sym_document
                   ((stack_nodes p.stack).reverse)
                   (p.language.hidden_symbol_flags ts_builtin_sym_document)),
                 stack := [] } := by
      simp only [reduce, htake, hdrop]
    have hgr : get_root p =
        ({ p with next_lookahead := none,
                  lookahead := p.lookahead,
                  stack := [⟨0, { ts_tree_make_node ts_builtin_sym_document
                    ((stack_nodes p.stack).reverse)
                    (p.language.hidden_symbol_flags ts_builtin_sym_document)
                    with extra := false, hidden := false }⟩] },
         some { ts_tree_make_node ts_builtin_sym_document
                  ((stack_nodes p.stack).reverse)
                  (p.language.hidden_symbol_flags ts_builtin_sym_document)
                  with extra := false, hidden := false }) := by
      simp only [get_root, if_neg hlen]
      rw [hred]
      simp [shift, ts_tree_is_extra, ts_stack_push]
    refine ⟨{ ts_tree_make_node ts_builtin_sym_document
        ((stack_nodes p.stack).reverse)
        (p.language.hidden_symbol_flags ts_builtin_sym_document)
        with extra := false, hidden := false },
      by rw [hgr], by rw [hgr], ?_, rfl, rfl, ?_⟩
    · exact make_node_symbol _ _ _
    · rw [hemp']
      simp only [Bool.false_eq_true, if_false]
      exact make_node_children _ _ _

/-! ### Claim C2: the state policy of `breakdown_stack` -/

/-- The re-push state policy as the code implements it, stated in the claim's
vocabulary: a child put back by the breakdown is pushed under the shift
action's target when the table's action for (current top-of-stack state,
child symbol) is a Shift, and under that same current top-of-stack state
otherwise. -/
def breakdown_push_state (lang : TSLanguage) (stack : TSStack) (child : TSTree) : Nat :=
  match action_for lang (ts_stack_top_state stack) child.symbol with
  | TSParseAction.shift s => s
  | _ => ts_stack_top_state stack

/-- Every push recorded by the inner loop of the breakdown follows
`breakdown_push_state` applied to the stack as it was at that push. -/
theorem put_back_children_policy (lang : TSLanguage) (edit_pos : Nat)
    (parent : TSStackEntry) :
    ∀ (children : List TSTree) (stack : TSStack) (pos : TSLength) (ev : PutBackEvent),
      ev ∈ (put_back_children lang edit_pos parent children stack pos).2.2 →
      ev.pushedState = breakdown_push_state lang ev.stackBefore ev.child := by
  intro children
  induction children with
  | nil =>
    intro stack pos ev hev
    simp [put_back_children] at hev
  | cons c rest ih =>
    intro stack pos ev hev
    by_cases h : pos.chars < edit_pos
    · simp only [put_back_children, if_pos h] at hev
      rcases List.mem_cons.mp hev with hev | hev
      · subst hev
        rfl
      · exact ih _ _ ev hev
    · simp only [put_back_children, if_neg h] at hev
      simp at hev

/-- C2 (amended).  Every child node put back onto the stack during
`breakdown_stack` is pushed under the state given by the parse table's action
for that child's symbol in the CURRENT top-of-stack state at the moment of
the push when that action is a Shift, and otherwise under that same current
top-of-stack state — which is the state of the entry below the popped parent
for the first child, or the state just given to the previously re-pushed
child, not the popped parent's own state. -/
theorem C2_breakdown_push_policy (lang : TSLanguage) (edit_pos : Nat) :
    ∀ (fuel : Nat) (stack : TSStack) (pos : TSLength) (ev : PutBackEvent),
      ev ∈ (breakdown_loop lang edit_pos fuel stack pos).2.2 →
      ev.pushedState = breakdown_push_state lang ev.stackBefore ev.child := by
  intro fuel
  induction fuel with
  | zero =>
    intro stack pos ev hev
    simp [breakdown_loop] at hev
  | succ fuel ih =>
    intro stack pos ev hev
    cases stack with
    | nil => simp [breakdown_loop] at hev
    | cons entry rest =>
      by_cases h : pos.chars < edit_pos ∧ entry.node.children.isEmpty = true
      · simp only [breakdown_loop, if_pos h] at hev
        simp at hev
      · simp only [breakdown_loop, if_neg h] at hev
        rcases List.mem_append.mp hev with hev | hev
        · exact put_back_children_policy lang edit_pos entry _ _ _ ev hev
        · exact ih _ _ ev hev

/-- The child of the popped parent in the C2 counterexample. -/
def c2_child : TSTree := sampleLeaf 3 1

/-- A one-child parent node stacked under state 9. -/
def c2_parent : TSTree :=
  { symbol := 6, padding := ts_length_zero, size := ⟨1, 1⟩,
    children := [c2_child], extra := false, hidden := false }

/-- A stack whose top entry is the parent (state 9) above a leaf entry whose
state is 5. -/
def c2_stack : TSStack := [⟨9, c2_parent⟩, ⟨5, sampleLeaf 1 1⟩]

/-- The single put-back event of the C2 counterexample run. -/
def c2_event : PutBackEvent :=
  ⟨[⟨5, sampleLeaf 1 1⟩], ⟨9, c2_parent⟩, c2_child, 5⟩

/-- C2 is false as stated: in a breakdown over `c2_stack` (edit at position
5, table everywhere Error), the parent with entry state 9 is popped, the
table's action for its child is Error — not a Shift — and yet the child is
pushed under state 5, the current top-of-stack state after the pop, not
under the popping parent's state 9. -/
theorem C2_counterexample :
    (breakdown_loop sampleLang 5 4 c2_stack
        (ts_stack_right_position c2_stack)).2.2 = [c2_event] ∧
    action_for sampleLang 5 c2_child.symbol = TSParseAction.error ∧
    c2_event.parent.state = 9 ∧
    c2_event.pushedState = 5 ∧
    (5 : Nat) ≠ 9 :=
  ⟨rfl, rfl, rfl, rfl, by decide⟩

/-- Witness for the amended C2 at the concrete event of the counterexample
run. -/
theorem C2_breakdown_push_policy_witness :
    c2_event ∈ (breakdown_loop sampleLang 5 4 c2_stack
        (ts_stack_right_position c2_stack)).2.2 ∧
    c2_event.pushedState = breakdown_push_state sampleLang c2_event.stackBefore c2_event.child :=
  ⟨by rw [show (breakdown_loop sampleLang 5 4 c2_stack
        (ts_stack_right_position c2_stack)).2.2 = [c2_event] from rfl]
      exact List.mem_singleton.mpr rfl,
   C2_breakdown_push_policy sampleLang 5 4 c2_stack
     (ts_stack_right_position c2_stack) c2_event
     (by rw [show (breakdown_loop sampleLang 5 4 c2_stack
        (ts_stack_right_position c2_stack)).2.2 = [c2_event] from rfl]
         exact List.mem_singleton.mpr rfl)⟩

/-! ### Claims C5 and C6: the two exits of `handle_error` -/

/-- Soundness of the stack scan: if it reports `(k, s')`, then the entry `k`
positions below the top has a Shift-on-error action to `s'`, the action of
`s'` on the lookahead symbol is not Error, and `k` is within the stack. -/
theorem recover_scan_sound (lang : TSLanguage) (sym : Nat) :
    ∀ (s : TSStack) (k s' : Nat), recover_scan lang sym s = some (k, s') →
      ∃ en rest, s.drop k = en :: rest ∧
        action_for lang en.state ts_builtin_sym_error = TSParseAction.shift s' ∧
        action_for lang s' sym ≠ TSParseAction.error ∧
        k ≤ s.length := by
  intro s
  induction s with
  | nil =>
    intro k s' h
    simp [recover_scan] at h
  | cons e rest ih =>
    intro k s' h
    cases hact : action_for lang e.state ts_builtin_sym_error with
    | shift s0 =>
      simp only [recover_scan, hact] at h
      by_cases herr : action_for lang s0 sym = TSParseAction.error
      · rw [if_pos herr] at h
        obtain ⟨⟨k0, s1⟩, hrec, hmap⟩ := Option.map_eq_some'.mp h
        obtain ⟨hk, hs⟩ := Prod.mk.injEq .. ▸ hmap
        subst hk
        subst hs
        obtain ⟨en, rest', hdrop, h1, h2, h3⟩ := ih k0 s1 hrec
        exact ⟨en, rest', by simpa [List.drop_succ_cons] using hdrop, h1, h2,
          by simp only [List.length_cons]; omega⟩
      · rw [if_neg herr] at h
        rw [Option.some.injEq, Prod.mk.injEq] at h
        obtain ⟨hk, hs⟩ := h
        subst hk
        subst hs
        exact ⟨e, rest, rfl, hact, herr, by simp⟩
    | shiftExtra =>
      simp only [recover_scan, hact] at h
      obtain ⟨⟨k0, s1⟩, hrec, hmap⟩ := Option.map_eq_some'.mp h
      obtain ⟨hk, hs⟩ := Prod.mk.injEq .. ▸ hmap
      subst hk; subst hs
      obtain ⟨en, rest', hdrop, h1, h2, h3⟩ := ih k0 s1 hrec
      exact ⟨en, rest', by simpa [List.drop_succ_cons] using hdrop, h1, h2,
        by simp only [List.length_cons]; omega⟩
    | reduce sym0 cnt0 =>
      simp only [recover_scan, hact] at h
      obtain ⟨⟨k0, s1⟩, hrec, hmap⟩ := Option.map_eq_some'.mp h
      obtain ⟨hk, hs⟩ := Prod.mk.injEq .. ▸ hmap
      subst hk; subst hs
      obtain ⟨en, rest', hdrop, h1, h2, h3⟩ := ih k0 s1 hrec
      exact ⟨en, rest', by simpa [List.drop_succ_cons] using hdrop, h1, h2,
        by simp only [List.length_cons]; omega⟩
    | reduceExtra sym0 =>
      simp only [recover_scan, hact] at h
      obtain ⟨⟨k0, s1⟩, hrec, hmap⟩ := Option.map_eq_some'.mp h
      obtain ⟨hk, hs⟩ := Prod.mk.injEq .. ▸ hmap
      subst hk; subst hs
      obtain ⟨en, rest', hdrop, h1, h2, h3⟩ := ih k0 s1 hrec
      exact ⟨en, rest', by simpa [List.drop_succ_cons] using hdrop, h1, h2,
        by simp only [List.length_cons]; omega⟩
    | accept =>
      simp only [recover_scan, hact] at h
      obtain ⟨⟨k0, s1⟩, hrec, hmap⟩ := Option.map_eq_some'.mp h
      obtain ⟨hk, hs⟩ := Prod.mk.injEq .. ▸ hmap
      subst hk; subst hs
      obtain ⟨en, rest', hdrop, h1, h2, h3⟩ := ih k0 s1 hrec
      exact ⟨en, rest', by simpa [List.drop_succ_cons] using hdrop, h1, h2,
        by simp only [List.length_cons]; omega⟩
    | error =>
      simp only [recover_scan, hact] at h
      obtain ⟨⟨k0, s1⟩, hrec, hmap⟩ := Option.map_eq_some'.mp h
      obtain ⟨hk, hs⟩ := Prod.mk.injEq .. ▸ hmap
      subst hk; subst hs
      obtain ⟨en, rest', hdrop, h1, h2, h3⟩ := ih k0 s1 hrec
      exact ⟨en, rest', by simpa [List.drop_succ_cons] using hdrop, h1, h2,
        by simp only [List.length_cons]; omega⟩
    | unknown =>
      simp only [recover_scan, hact] at h
      obtain ⟨⟨k0, s1⟩, hrec, hmap⟩ := Option.map_eq_some'.mp h
      obtain ⟨hk, hs⟩ := Prod.mk.injEq .. ▸ hmap
      subst hk; subst hs
      obtain ⟨en, rest', hdrop, h1, h2, h3⟩ := ih k0 s1 hrec
      exact ⟨en, rest', by simpa [List.drop_succ_cons] using hdrop, h1, h2,
        by simp only [List.length_cons]; omega⟩

/-- The lookahead with its padding cleared, as recovery's success branch
leaves it. -/
def recover_la (la : TSTree) : TSTree := { la with padding := ts_length_zero }

/-- The parser after recovery's success branch has truncated the stack to
just above the found entry and cleared the lookahead's padding (a proof
abbreviation: C lines 146–147). -/
def recover_trunc (p : TSParser) (k : Nat) (la : TSTree) : TSParser :=
  { p with stack := p.stack.drop k, lookahead := some (recover_la la) }

/-- C5.  If the scan from the top of the stack finds a state `S` (the entry
`k` positions below the top) with `action_for(S, SYM_ERROR) = Shift s'` and
`action_for(s', lookahead.symbol) ≠ Error`, then one iteration of the
recovery loop succeeds: the stack is truncated to just above `S` (the found
entry stays, everything above it is dropped), the lookahead's padding is
cleared to zero, the error node is resized so that its size is
`(token_start_position − right_position(truncated stack)) − its own padding`,
`(s', error node)` is pushed, and the loop returns success. -/
theorem C5_recover_success (fuel : Nat) (p : TSParser) (error : TSTree)
    (aliased : Bool) (la : TSTree) (k s' : Nat)
    (hla : p.lookahead = some la)
    (hscan : recover_scan p.language la.symbol p.stack = some (k, s')) :
    ∃ p' e la' en rest,
      handle_error_loop (fuel + 1) p error aliased = some (true, p') ∧
      p.stack.drop k = en :: rest ∧
      action_for p.language en.state ts_builtin_sym_error = TSParseAction.shift s' ∧
      action_for p.language s' la.symbol ≠ TSParseAction.error ∧
      p'.stack = ts_stack_push (p.stack.drop k) s' e ∧
      p'.lookahead = some la' ∧
      la'.padding = ts_length_zero ∧
      e.size = ts_length_sub (ts_length_sub p.lexer.token_start_position
        (ts_stack_right_position (p.stack.drop k))) e.padding ∧
      p'.lexer = p.lexer := by
  obtain ⟨en, rest, hdrop, hact, herr, hk⟩ :=
    recover_scan_sound p.language la.symbol p.stack k s' hscan
  have hshr : ts_stack_shrink p.stack (p.stack.length - k) = p.stack.drop k :=
    ts_stack_shrink_drop _ _ hk
  cases aliased with
  | false =>
    have hloop : handle_error_loop (fuel + 1) p error false = some (true,
        { recover_trunc p k la with
          stack := ts_stack_push (p.stack.drop k) s' (resize_error (recover_trunc p k la) error) }) := by
      simp [handle_error_loop, hla, hscan, hshr, resize_error, ts_stack_push,
        recover_trunc, recover_la]
    exact ⟨_, _, _, en, rest, hloop, hdrop, hact, herr, rfl, rfl, rfl, rfl, rfl⟩
  | true =>
    have hloop : handle_error_loop (fuel + 1) p error true = some (true,
        { recover_trunc p k la with
          stack := ts_stack_push (p.stack.drop k) s' (resize_error (recover_trunc p k la) (recover_la la)),
          lookahead := some (resize_error (recover_trunc p k la) (recover_la la)) }) := by
      simp [handle_error_loop, hla, hscan, hshr, resize_error, ts_stack_push,
        recover_trunc, recover_la]
    exact ⟨_, _, _, en, rest, hloop, hdrop, hact, herr, rfl, rfl, rfl, rfl, rfl⟩

/-- A language for the recovery witnesses: state 5 shifts the error symbol to
state 7, which accepts symbol 2; everything else is Error. -/
def langB : TSLanguage :=
  { symbol_count := 10,
    parse_table := fun st sym =>
      if st = 5 ∧ sym = ts_builtin_sym_error then TSParseAction.shift 7
      else if st = 7 ∧ sym = 2 then TSParseAction.shift 8
      else TSParseAction.error,
    lex_states := fun _ => 0, hidden_symbol_flags := fun _ => false,
    lex_fn := fun l _ => (l, sampleLeaf 9 0) }

/-- A parser about to recover: ordinary lookahead with symbol 2 under a table
that yields Error for it, stack holding one entry at state 5. -/
def sampleParserB : TSParser :=
  { language := langB, stack := [⟨5, sampleLeaf 1 1⟩],
    lexer := { input := ⟨['a', 'b']⟩, current_position := ⟨2, 2⟩,
               token_start_position := ⟨1, 1⟩ },
    lookahead := some (sampleLeaf 2 1), next_lookahead := none, debug := false }

/-- Witness for C5 on `sampleParserB`: the scan finds state 5 at the top. -/
theorem C5_recover_success_witness :
    (sampleParserB.lookahead = some (sampleLeaf 2 1) ∧
      recover_scan sampleParserB.language (sampleLeaf 2 1).symbol
        sampleParserB.stack = some (0, 7)) ∧
    (∃ p' e la' en rest,
      handle_error_loop (4 + 1) sampleParserB (sampleLeaf 2 1) true = some (true, p') ∧
      sampleParserB.stack.drop 0 = en :: rest ∧
      action_for sampleParserB.language en.state ts_builtin_sym_error =
        TSParseAction.shift 7 ∧
      action_for sampleParserB.language 7 (sampleLeaf 2 1).symbol ≠
        TSParseAction.error ∧
      p'.stack = ts_stack_push (sampleParserB.stack.drop 0) 7 e ∧
      p'.lookahead = some la' ∧
      la'.padding = ts_length_zero ∧
      e.size = ts_length_sub (ts_length_sub sampleParserB.lexer.token_start_position
        (ts_stack_right_position (sampleParserB.stack.drop 0))) e.padding ∧
      p'.lexer = sampleParserB.lexer) :=
  ⟨⟨rfl, rfl⟩,
   C5_recover_success 4 sampleParserB (sampleLeaf 2 1) true (sampleLeaf 2 1) 0 7
     rfl rfl⟩

/-- C6.  When no recoverable state exists on the stack (the scan fails), the
re-lex in the dedicated error lex state makes no progress (the lexer position
is unchanged) and the forced single-character advance fails because the end
of input is reached, the recovery loop resizes the error node against the
unchanged stack, pushes it at state 0, and returns failure; and whenever
`handle_error` returns failure from an Error action, the driver's step
finalizes, returning the tree built by `get_root`. -/
theorem C6_recover_fail (fuel : Nat) (p : TSParser) (error : TSTree)
    (aliased : Bool) (la la' : TSTree) (lexer1 : TSLexer)
    (hla : p.lookahead = some la)
    (hscan : recover_scan p.language la.symbol p.stack = none)
    (hlex : p.language.lex_fn p.lexer ts_lex_state_error = (lexer1, la'))
    (hsame : ts_length_eq lexer1.current_position p.lexer.current_position = true)
    (hadv : (ts_lexer_advance lexer1).2 = false) :
    (∃ p' e,
      handle_error_loop (fuel + 1) p error aliased = some (false, p') ∧
      p'.stack = ts_stack_push p.stack 0 e ∧
      e = { error with
            size := (ts_length_sub (ts_length_sub
              (ts_lexer_advance lexer1).1.token_start_position
              (ts_stack_right_position p.stack)) error.padding) } ∧
      p'.lookahead = some la' ∧
      p'.lexer = (ts_lexer_advance lexer1).1) ∧
    (∀ (rfuel : Nat) (q q' : TSParser) (lq : TSTree),
      q.lookahead = some lq →
      action_for q.language (ts_stack_top_state q.stack) lq.symbol =
        TSParseAction.error →
      handle_error rfuel q = some (false, q') →
      parse_step rfuel q = StepResult.ret (get_root q').2) := by
  constructor
  · have hlexp : lex p ts_lex_state_error =
        { p with lexer := lexer1, lookahead := some la' } := by
      simp [lex, hlex]
    have hloop : handle_error_loop (fuel + 1) p error aliased = some (false,
        { p with
          lexer := (ts_lexer_advance lexer1).1,
          lookahead := some la',
          stack := ts_stack_push p.stack 0 (resize_error { p with lexer := (ts_lexer_advance lexer1).1, lookahead := some la' } error) }) := by
      simp [handle_error_loop, hla, hscan, hlexp, hsame, hadv, resize_error,
        ts_stack_push]
    exact ⟨_, _, hloop, rfl, rfl, rfl, rfl⟩
  · intro rfuel q q' lq hlq herrq hheq
    simp [parse_step, hlq, herrq, hheq]

/-- A parser that cannot recover: all-Error table, cursor at the end of its
one-character input. -/
def sampleParserC : TSParser :=
  { language := sampleLang, stack := [⟨3, sampleLeaf 1 1⟩],
    lexer := { input := ⟨['a']⟩, current_position := ⟨1, 1⟩,
               token_start_position := ⟨1, 1⟩ },
    lookahead := some (sampleLeaf 2 1), next_lookahead := none, debug := false }

/-- Witness for C6 on `sampleParserC`: no recoverable state, the re-lex does
not move, and the forced advance hits the end of input. -/
theorem C6_recover_fail_witness :
    (sampleParserC.lookahead = some (sampleLeaf 2 1) ∧
      recover_scan sampleParserC.language (sampleLeaf 2 1).symbol
        sampleParserC.stack = none ∧
      sampleParserC.language.lex_fn sampleParserC.lexer ts_lex_state_error =
        (sampleParserC.lexer, sampleLeaf 9 0) ∧
      ts_length_eq sampleParserC.lexer.current_position
        sampleParserC.lexer.current_position = true ∧
      (ts_lexer_advance sampleParserC.lexer).2 = false) ∧
    ((∃ p' e,
      handle_error_loop (3 + 1) sampleParserC (sampleLeaf 2 1) true =
        some (false, p') ∧
      p'.stack = ts_stack_push sampleParserC.stack 0 e ∧
      e = { sampleLeaf 2 1 with
            size := (ts_length_sub (ts_length_sub
              (ts_lexer_advance sampleParserC.lexer).1.token_start_position
              (ts_stack_right_position sampleParserC.stack)) (sampleLeaf 2 1).padding) } ∧
      p'.lookahead = some (sampleLeaf 9 0) ∧
      p'.lexer = (ts_lexer_advance sampleParserC.lexer).1) ∧
    (∀ (rfuel : Nat) (q q' : TSParser) (lq : TSTree),
      q.lookahead = some lq →
      action_for q.language (ts_stack_top_state q.stack) lq.symbol =
        TSParseAction.error →
      handle_error rfuel q = some (false, q') →
      parse_step rfuel q = StepResult.ret (get_root q').2)) :=
  ⟨⟨rfl, rfl, rfl, rfl, rfl⟩,
   C6_recover_fail 3 sampleParserC (sampleLeaf 2 1) true (sampleLeaf 2 1)
     (sampleLeaf 9 0) sampleParserC.lexer rfl rfl rfl rfl rfl⟩

/-! ### Claim C4: what recovery pushes -/

/-- C4 (amended).  Whenever the recovery loop returns (either exit), exactly
one node has been pushed on top of a suffix of the original stack as the
error representative: it is the node retained at entry (the lookahead when
`handle_error` was invoked) — so it keeps that node's SYMBOL and children —
and its size is set by `resize_error` so that it spans from the remaining
stack's right position to the lexer's `token_start_position`, minus the
node's own padding. -/
theorem C4_handle_error_one_node (fuel : Nat) :
    ∀ (p : TSParser) (error : TSTree) (aliased : Bool) (flag : Bool)
      (p' : TSParser),
      (aliased = true → p.lookahead = some error) →
      handle_error_loop fuel p error aliased = some (flag, p') →
      ∃ st e k, k ≤ p.stack.length ∧
        p'.stack = ts_stack_push (p.stack.drop k) st e ∧
        e.symbol = error.symbol ∧
        e.children = error.children ∧
        e.size = ts_length_sub (ts_length_sub p'.lexer.token_start_position
          (ts_stack_right_position (p.stack.drop k))) e.padding := by
  induction fuel with
  | zero =>
    intro p error aliased flag p' halias h
    simp [handle_error_loop] at h
  | succ fuel ih =>
    intro p error aliased flag p' halias h
    cases hla : p.lookahead with
    | none =>
      simp only [handle_error_loop, hla] at h
      exact Option.noConfusion h
    | some la =>
      simp only [handle_error_loop, hla] at h
      cases hscan : recover_scan p.language la.symbol p.stack with
      | some ks =>
        obtain ⟨k, s'⟩ := ks
        simp only [hscan] at h
        obtain ⟨en, rest2, hdropk, hact2, herr2, hk⟩ :=
          recover_scan_sound p.language la.symbol p.stack k s' hscan
        have hshr := ts_stack_shrink_drop p.stack k hk
        rw [hshr] at h
        rw [Option.some.injEq, Prod.mk.injEq] at h
        obtain ⟨hflag, hp'⟩ := h
        subst hp'
        cases aliased with
        | true =>
          have hle : la = error := by
            have h2 := halias rfl
            rw [hla] at h2
            exact Option.some.inj h2
          subst hle
          exact ⟨s', _, k, hk, rfl, rfl, rfl, rfl⟩
        | false =>
          exact ⟨s', _, k, hk, rfl, rfl, rfl, rfl⟩
      | none =>
        simp only [hscan] at h
        split at h
        · split at h
          · obtain ⟨st, e, k, hk, h1, h2, h3, h4⟩ :=
              ih _ error false flag p' (fun hc => nomatch hc) h
            exact ⟨st, e, k, hk, h1, h2, h3, h4⟩
          · rw [Option.some.injEq, Prod.mk.injEq] at h
            obtain ⟨hflag, hp'⟩ := h
            subst hp'
            exact ⟨0, _, 0, Nat.zero_le _, rfl, rfl, rfl, rfl⟩
        · obtain ⟨st, e, k, hk, h1, h2, h3, h4⟩ :=
            ih _ error false flag p' (fun hc => nomatch hc) h
          exact ⟨st, e, k, hk, h1, h2, h3, h4⟩

/-- C4 is false as stated: on `sampleParserB` the action of the top state 5
on the ordinary lookahead token (symbol 2) is Error, so recovery is entered
on an ordinary token; recovery succeeds and the node it pushes as the error
representative is that very token — its symbol is 2, NOT
`ts_builtin_sym_error` — so the unrecognized span is not represented by a
`SYM_ERROR` node in this entry mode. -/
theorem C4_counterexample :
    action_for sampleParserB.language (ts_stack_top_state sampleParserB.stack)
      (sampleLeaf 2 1).symbol = TSParseAction.error ∧
    ((handle_error 5 sampleParserB).map
      (fun r => (r.1, r.2.stack.map (fun en => (en.state, en.node.symbol))))) =
      some (true, [(7, 2), (5, 1)]) ∧
    (2 : Nat) ≠ ts_builtin_sym_error :=
  ⟨rfl, rfl, by decide⟩

/-- The parser produced by the witness run of the recovery loop. -/
def c4_result : TSParser :=
  ((handle_error_loop 5 sampleParserB (sampleLeaf 2 1) true).getD
    (false, sampleParserB)).2

/-- Witness for the amended C4 at the concrete recovery of `sampleParserB`. -/
theorem C4_handle_error_one_node_witness :
    ((true = true → sampleParserB.lookahead = some (sampleLeaf 2 1)) ∧
      handle_error_loop 5 sampleParserB (sampleLeaf 2 1) true =
        some (true, c4_result)) ∧
    (∃ st e k, k ≤ sampleParserB.stack.length ∧
      c4_result.stack = ts_stack_push (sampleParserB.stack.drop k) st e ∧
      e.symbol = (sampleLeaf 2 1).symbol ∧
      e.children = (sampleLeaf 2 1).children ∧
      e.size = ts_length_sub (ts_length_sub c4_result.lexer.token_start_position
        (ts_stack_right_position (sampleParserB.stack.drop k))) e.padding) :=
  ⟨⟨fun _ => rfl, rfl⟩,
   C4_handle_error_one_node 5 sampleParserB (sampleLeaf 2 1) true true c4_result
     (fun _ => rfl) rfl⟩

/-! ### Claim C3: termination of the parse loop -/

/-- A language whose every table cell is a zero-arity reduction of symbol 2;
its lexer emits a zero-width token without moving (as a lexer does at end of
input). -/
def langC3 : TSLanguage :=
  { symbol_count := 3, parse_table := fun _ _ => TSParseAction.reduce 2 0,
    lex_states := fun _ => 0, hidden_symbol_flags := fun _ => false,
    lex_fn := fun l _ => (l, sampleLeaf 1 0) }

/-- The parser state at the start of the `langC3` run. -/
def c3_p0 : TSParser :=
  { language := langC3, stack := [],
    lexer := { input := ⟨[]⟩, current_position := ts_length_zero,
               token_start_position := ts_length_zero },
    lookahead := none, next_lookahead := none, debug := false }

/-- The node the cyclic reduction keeps producing. -/
def c3_node : TSTree := ts_tree_make_node 2 [] false

/-- The state after the first iteration (token lexed, first reduction). -/
def c3_p1 : TSParser :=
  { c3_p0 with lookahead := some c3_node, next_lookahead := some (sampleLeaf 1 0) }

/-- The fixed point the loop reaches from the second iteration on: each
further iteration reduces the freshly produced node again, changing
nothing. -/
def c3_p2 : TSParser :=
  { c3_p0 with lookahead := some c3_node, next_lookahead := some c3_node }

/-- C3 is false as stated: on `langC3` (every action a zero-arity reduce) and
empty input, `ts_parser_parse` never returns — an iteration whose reduce has
zero effective child count consumes no input and leaves the stack unchanged,
so the loop revisits the same state forever. -/
theorem C3_counterexample : ¬ parse_returns (ts_parser_make langC3) ⟨[]⟩ none := by
  intro h
  obtain ⟨steps, rfuel, bfuel, r, hr⟩ := h
  have hinit : ts_parser_parse steps rfuel bfuel (ts_parser_make langC3) ⟨[]⟩ none =
      parse_loop rfuel steps c3_p0 := rfl
  have hstep2 : parse_step rfuel c3_p2 = StepResult.next c3_p2 := rfl
  have habs : ∀ m, parse_loop rfuel m c3_p2 = none := by
    intro m
    induction m with
    | zero => rfl
    | succ m ihm =>
      simp only [parse_loop, hstep2]
      exact ihm
  have hrun : parse_loop rfuel steps c3_p0 = none := by
    match steps with
    | 0 => rfl
    | 1 => rfl
    | (m + 2) =>
      rw [show parse_loop rfuel (m + 2) c3_p0 = parse_loop rfuel m c3_p2 from rfl]
      exact habs m
  rw [hinit, hrun] at hr
  exact Option.noConfusion hr

/-- C3 (amended).  Every iteration of the parse loop with a lookahead present
falls into exactly one of these cases: it returns to the caller; it runs out
of recovery fuel (an artifact of the embedding); it shifts, growing the
stack by one entry and consuming the lookahead; it shift-extras, likewise;
it reduces, replacing the top `k` entries (k the effective child count,
POSSIBLY ZERO — in which case the iteration consumes nothing and the loop
need not terminate, as `C3_counterexample` shows); it reduce-extras,
likewise; or it enters recovery and continues with the recovered parser. -/
theorem C3_parse_step_cases (rfuel : Nat) (p : TSParser) (la : TSTree)
    (hla : p.lookahead = some la) :
    (∃ t, parse_step rfuel p = StepResult.ret t) ∨
    parse_step rfuel p = StepResult.stuck ∨
    (∃ s, parse_step rfuel p = StepResult.next (shift p s) ∧
      (shift p s).stack.length = p.stack.length + 1) ∨
    (parse_step rfuel p = StepResult.next (shift_extra p) ∧
      (shift_extra p).stack.length = p.stack.length + 1) ∨
    (∃ sym cnt k, k ≤ p.stack.length ∧
      parse_step rfuel p = StepResult.next (reduce p sym cnt) ∧
      (reduce p sym cnt).stack = p.stack.drop k) ∨
    (∃ sym k, k ≤ p.stack.length ∧
      parse_step rfuel p = StepResult.next (reduce_extra p sym) ∧
      (reduce_extra p sym).stack = p.stack.drop k) ∨
    (∃ q, parse_step rfuel p = StepResult.next q ∧
      handle_error rfuel p = some (true, q)) := by
  cases hact : action_for p.language (ts_stack_top_state p.stack) la.symbol with
  | shift s =>
    by_cases hsym : la.symbol = ts_builtin_sym_error
    · rw [hsym] at hact
      cases hhe : handle_error rfuel p with
      | none =>
        exact Or.inr (Or.inl (by simp [parse_step, hla, hact, hsym, hhe]))
      | some r =>
        obtain ⟨fl, q⟩ := r
        cases fl with
        | true =>
          refine Or.inr (Or.inr (Or.inr (Or.inr (Or.inr (Or.inr ⟨q, ?_, rfl⟩)))))
          simp [parse_step, hla, hact, hsym, hhe]
        | false =>
          exact Or.inl ⟨(get_root q).2, by simp [parse_step, hla, hact, hsym, hhe]⟩
    · refine Or.inr (Or.inr (Or.inl ⟨s, ?_, ?_⟩))
      · simp [parse_step, hla, hact, hsym]
      · simp [shift, hla, ts_stack_push]
  | shiftExtra =>
    refine Or.inr (Or.inr (Or.inr (Or.inl ⟨?_, ?_⟩)))
    · simp [parse_step, hla, hact]
    · simp [shift_extra, shift, hla, ts_stack_push, ts_tree_set_extra]
  | reduce sym cnt =>
    refine Or.inr (Or.inr (Or.inr (Or.inr (Or.inl ⟨sym, cnt,
      p.stack.length - (p.stack.length -
        reduce_walk p.stack.length (stack_nodes p.stack) 0 cnt),
      by omega, ?_, rfl⟩))))
    simp [parse_step, hla, hact]
  | reduceExtra sym =>
    refine Or.inr (Or.inr (Or.inr (Or.inr (Or.inr (Or.inl ⟨sym,
      p.stack.length - (p.stack.length -
        reduce_walk p.stack.length (stack_nodes p.stack) 0 1),
      by omega, ?_, rfl⟩)))))
    simp [parse_step, hla, hact]
  | accept =>
    exact Or.inl ⟨(get_root p).2, by simp [parse_step, hla, hact]⟩
  | error =>
    cases hhe : handle_error rfuel p with
    | none =>
      exact Or.inr (Or.inl (by simp [parse_step, hla, hact, hhe]))
    | some r =>
      obtain ⟨fl, q⟩ := r
      cases fl with
      | true =>
        refine Or.inr (Or.inr (Or.inr (Or.inr (Or.inr (Or.inr ⟨q, ?_, rfl⟩)))))
        simp [parse_step, hla, hact, hhe]
      | false =>
        exact Or.inl ⟨(get_root q).2, by simp [parse_step, hla, hact, hhe]⟩
  | unknown =>
    exact Or.inl ⟨none, by simp [parse_step, hla, hact]⟩

/-- Witness for the amended C3 at `sampleParserA` (whose lookahead is
present). -/
theorem C3_parse_step_cases_witness :
    sampleParserA.lookahead = some (sampleLeaf 7 1) ∧
    ((∃ t, parse_step 3 sampleParserA = StepResult.ret t) ∨
    parse_step 3 sampleParserA = StepResult.stuck ∨
    (∃ s, parse_step 3 sampleParserA = StepResult.next (shift sampleParserA s) ∧
      (shift sampleParserA s).stack.length = sampleParserA.stack.length + 1) ∨
    (parse_step 3 sampleParserA = StepResult.next (shift_extra sampleParserA) ∧
      (shift_extra sampleParserA).stack.length = sampleParserA.stack.length + 1) ∨
    (∃ sym cnt k, k ≤ sampleParserA.stack.length ∧
      parse_step 3 sampleParserA = StepResult.next (reduce sampleParserA sym cnt) ∧
      (reduce sampleParserA sym cnt).stack = sampleParserA.stack.drop k) ∨
    (∃ sym k, k ≤ sampleParserA.stack.length ∧
      parse_step 3 sampleParserA = StepResult.next (reduce_extra sampleParserA sym) ∧
      (reduce_extra sampleParserA sym).stack = sampleParserA.stack.drop k) ∨
    (∃ q, parse_step 3 sampleParserA = StepResult.next q ∧
      handle_error 3 sampleParserA = some (true, q))) :=
  ⟨rfl, C3_parse_step_cases 3 sampleParserA (sampleLeaf 7 1) rfl⟩

/-! ### Claim C9: null results and grammar failures -/

/-- A shift with a lookahead present pushes exactly one entry holding it. -/
theorem shift_stack_cons (p : TSParser) (la : TSTree) (s : Nat)
    (h : p.lookahead = some la) :
    ∃ st, (shift p s).stack = ⟨st, la⟩ :: p.stack := by
  refine ⟨if ts_tree_is_extra la then ts_stack_top_state p.stack else s, ?_⟩
  simp [shift, h, ts_stack_push]

/-- A non-empty stack has a bottom entry whose node the root extraction
returns. -/
theorem cons_getLast_node (en : TSStackEntry) (rest : TSStack) :
    ∃ t, Option.map (fun e => e.node) (List.getLast? (en :: rest)) = some t := by
  have hne : (en :: rest) ≠ ([] : TSStack) := by simp
  have hsome := List.getLast?_isSome.mpr hne
  obtain ⟨x, hx⟩ := Option.isSome_iff_exists.mp hsome
  exact ⟨x.node, by rw [hx]; rfl⟩

/-- The final shift of `get_root` leaves a non-empty stack, so the returned
root is present (auxiliary form, over the parser the document is built
from). -/
theorem get_root_returns_aux (q : TSParser) :
    ∃ t, (Option.map (fun e => e.node)
      (List.getLast? (shift { reduce q ts_builtin_sym_document q.stack.length with
        lookahead := (reduce q ts_builtin_sym_document q.stack.length).lookahead.map
          (fun t => { t with extra := false, hidden := false }) } 0).stack)) = some t := by
  obtain ⟨st, hst⟩ := shift_stack_cons
    { reduce q ts_builtin_sym_document q.stack.length with
      lookahead := (reduce q ts_builtin_sym_document q.stack.length).lookahead.map
        (fun t => { t with extra := false, hidden := false }) } _ 0 rfl
  rw [hst]
  exact cons_getLast_node _ _

/-- Finalization via `get_root` always returns a root node. -/
theorem get_root_returns (p : TSParser) : ∃ t, (get_root p).2 = some t :=
  get_root_returns_aux (if p.stack.length = 0 then
    { p with stack := ts_stack_push p.stack 0 (ts_tree_make_error ts_length_zero ts_length_zero) }
    else p)

/-- The recovery loop never changes the parser's language. -/
theorem handle_error_loop_lang (fuel : Nat) :
    ∀ (p : TSParser) (error : TSTree) (aliased flag : Bool) (p' : TSParser),
      handle_error_loop fuel p error aliased = some (flag, p') →
      p'.language = p.language := by
  induction fuel with
  | zero =>
    intro p error aliased flag p' h
    simp [handle_error_loop] at h
  | succ fuel ih =>
    intro p error aliased flag p' h
    cases hla : p.lookahead with
    | none =>
      simp only [handle_error_loop, hla] at h
      exact Option.noConfusion h
    | some la =>
      simp only [handle_error_loop, hla] at h
      cases hscan : recover_scan p.language la.symbol p.stack with
      | some ks =>
        simp only [hscan] at h
        rw [Option.some.injEq, Prod.mk.injEq] at h
        obtain ⟨hflag, hp'⟩ := h
        subst hp'
        rfl
      | none =>
        simp only [hscan] at h
        split at h
        · split at h
          · have hres := ih _ error false flag p' h
            exact hres
          · rw [Option.some.injEq, Prod.mk.injEq] at h
            obtain ⟨hflag, hp'⟩ := h
            subst hp'
            rfl
        · have hres := ih _ error false flag p' h
          exact hres

/-- With an empty lookahead slot, a parse step first lexes: it agrees with
the step taken from the lexed parser. -/
theorem parse_step_lex (rfuel : Nat) (p : TSParser) (h : p.lookahead = none) :
    parse_step rfuel p =
      parse_step rfuel (lex p (p.language.lex_states (ts_stack_top_state p.stack))) := by
  simp [parse_step, h, lex]

/-- A continuing parse step never changes the parser's language (lookahead
present). -/
theorem parse_step_lang_some (rfuel : Nat) (p q : TSParser) (la : TSTree)
    (hla : p.lookahead = some la)
    (h : parse_step rfuel p = StepResult.next q) : q.language = p.language := by
  cases hact : action_for p.language (ts_stack_top_state p.stack) la.symbol with
  | shift s =>
    by_cases hsym : la.symbol = ts_builtin_sym_error
    · rw [hsym] at hact
      cases hhe : handle_error rfuel p with
      | none => simp [parse_step, hla, hact, hsym, hhe] at h
      | some r =>
        obtain ⟨fl, q'⟩ := r
        cases fl with
        | true =>
          simp [parse_step, hla, hact, hsym, hhe] at h
          subst h
          have hhl : handle_error_loop rfuel p la true = some (true, q') := by
            rw [← hhe]
            simp [handle_error, hla]
          exact handle_error_loop_lang rfuel p la true true q' hhl
        | false => simp [parse_step, hla, hact, hsym, hhe] at h
    · simp [parse_step, hla, hact, hsym] at h
      subst h
      simp [shift, hla]
  | shiftExtra =>
    simp [parse_step, hla, hact] at h
    subst h
    simp [shift_extra, shift, hla, ts_tree_set_extra]
  | reduce sym cnt =>
    simp [parse_step, hla, hact] at h
    subst h
    rfl
  | reduceExtra sym =>
    simp [parse_step, hla, hact] at h
    subst h
    rfl
  | accept => simp [parse_step, hla, hact] at h
  | error =>
    cases hhe : handle_error rfuel p with
    | none => simp [parse_step, hla, hact, hhe] at h
    | some r =>
      obtain ⟨fl, q'⟩ := r
      cases fl with
      | true =>
        simp [parse_step, hla, hact, hhe] at h
        subst h
        have hhl : handle_error_loop rfuel p la true = some (true, q') := by
          rw [← hhe]
          simp [handle_error, hla]
        exact handle_error_loop_lang rfuel p la true true q' hhl
      | false => simp [parse_step, hla, hact, hhe] at h
  | unknown => simp [parse_step, hla, hact] at h

/-- A continuing parse step never changes the parser's language. -/
theorem parse_step_lang (rfuel : Nat) (p q : TSParser)
    (h : parse_step rfuel p = StepResult.next q) : q.language = p.language := by
  cases hla : p.lookahead with
  | none =>
    rw [parse_step_lex rfuel p hla] at h
    have h2 := parse_step_lang_some rfuel
      (lex p (p.language.lex_states (ts_stack_top_state p.stack))) q _ rfl h
    exact h2
  | some la => exact parse_step_lang_some rfuel p q la hla h

/-- A parse step on a table without unrecognized action types never returns
the null result (lookahead present). -/
theorem parse_step_no_null_some (rfuel : Nat) (p : TSParser) (la : TSTree)
    (hla : p.lookahead = some la)
    (hwf : ∀ st sym, p.language.parse_table st sym ≠ TSParseAction.unknown) :
    parse_step rfuel p ≠ StepResult.ret none := by
  intro hcontra
  cases hact : action_for p.language (ts_stack_top_state p.stack) la.symbol with
  | shift s =>
    by_cases hsym : la.symbol = ts_builtin_sym_error
    · rw [hsym] at hact
      cases hhe : handle_error rfuel p with
      | none => simp [parse_step, hla, hact, hsym, hhe] at hcontra
      | some r =>
        obtain ⟨fl, q⟩ := r
        cases fl with
        | true => simp [parse_step, hla, hact, hsym, hhe] at hcontra
        | false =>
          obtain ⟨t, ht⟩ := get_root_returns q
          simp [parse_step, hla, hact, hsym, hhe, ht] at hcontra
    · simp [parse_step, hla, hact, hsym] at hcontra
  | shiftExtra => simp [parse_step, hla, hact] at hcontra
  | reduce sym cnt => simp [parse_step, hla, hact] at hcontra
  | reduceExtra sym => simp [parse_step, hla, hact] at hcontra
  | accept =>
    obtain ⟨t, ht⟩ := get_root_returns p
    simp [parse_step, hla, hact, ht] at hcontra
  | error =>
    cases hhe : handle_error rfuel p with
    | none => simp [parse_step, hla, hact, hhe] at hcontra
    | some r =>
      obtain ⟨fl, q⟩ := r
      cases fl with
      | true => simp [parse_step, hla, hact, hhe] at hcontra
      | false =>
        obtain ⟨t, ht⟩ := get_root_returns q
        simp [parse_step, hla, hact, hhe, ht] at hcontra
  | unknown => exact hwf _ _ hact

/-- A parse step on a table without unrecognized action types never returns
the null result. -/
theorem parse_step_no_null (rfuel : Nat) (p : TSParser)
    (hwf : ∀ st sym, p.language.parse_table st sym ≠ TSParseAction.unknown) :
    parse_step rfuel p ≠ StepResult.ret none := by
  cases hla : p.lookahead with
  | none =>
    rw [parse_step_lex rfuel p hla]
    exact parse_step_no_null_some rfuel
      (lex p (p.language.lex_states (ts_stack_top_state p.stack))) _ rfl hwf
  | some la => exact parse_step_no_null_some rfuel p la hla hwf

/-- C9 (amended).  `ts_parser_parse` returns the null tree only when a
parse-table cell with an unrecognized action type is encountered: on a table
with no such cells, whatever value the parse returns is a non-null tree
(recovery failures included, via finalization).  A return is, however, not
guaranteed for arbitrary tables — `C9_counterexample` exhibits a grammar
failure after which the loop never returns. -/
theorem C9_null_only_on_unknown (p : TSParser) (input : TSInput)
    (edit : Option Nat)
    (hwf : ∀ st sym, p.language.parse_table st sym ≠ TSParseAction.unknown) :
    ∀ (steps rfuel bfuel : Nat),
      ts_parser_parse steps rfuel bfuel p input edit ≠ some none := by
  intro steps rfuel bfuel
  have hloop : ∀ (n : Nat) (q : TSParser),
      (∀ st sym, q.language.parse_table st sym ≠ TSParseAction.unknown) →
      parse_loop rfuel n q ≠ some none := by
    intro n
    induction n with
    | zero =>
      intro q hq hcontra
      simp [parse_loop] at hcontra
    | succ n ihn =>
      intro q hq hcontra
      cases hstep : parse_step rfuel q with
      | next q' =>
        simp only [parse_loop, hstep] at hcontra
        have hlang := parse_step_lang rfuel q q' hstep
        exact ihn q' (by rw [hlang]; exact hq) hcontra
      | ret t =>
        simp only [parse_loop, hstep] at hcontra
        rw [Option.some.injEq] at hcontra
        subst hcontra
        exact parse_step_no_null rfuel q hq hstep
      | stuck =>
        simp only [parse_loop, hstep] at hcontra
        exact Option.noConfusion hcontra
  have hlang1 : ((breakdown_stack bfuel
      { p with lookahead := none, next_lookahead := none } edit).1).language =
      p.language := by
    cases edit <;> rfl
  have h1 : ts_parser_parse steps rfuel bfuel p input edit =
      parse_loop rfuel steps
        { (breakdown_stack bfuel { p with lookahead := none, next_lookahead := none } edit).1 with
          lexer := ts_lexer_reset
            { (breakdown_stack bfuel { p with lookahead := none, next_lookahead := none } edit).1.lexer with
              input := input }
            (breakdown_stack bfuel { p with lookahead := none, next_lookahead := none } edit).2 } := rfl
  rw [h1]
  exact hloop steps _ (by intro st sym; rw [show ({ (breakdown_stack bfuel { p with lookahead := none, next_lookahead := none } edit).1 with
          lexer := ts_lexer_reset
            { (breakdown_stack bfuel { p with lookahead := none, next_lookahead := none } edit).1.lexer with
              input := input }
            (breakdown_stack bfuel { p with lookahead := none, next_lookahead := none } edit).2 } : TSParser).language =
      p.language from hlang1]; exact hwf st sym)

/-- The lexer transition of the `langC9` lexer when a character remains:
start the token at the cursor and advance one character. -/
def c9_lex_adv (l : TSLexer) : TSLexer :=
  { l with token_start_position := l.current_position,
           current_position := ts_length_add l.current_position ⟨1, 1⟩ }

/-- The `langC9` lexer at end of input: record the token start, do not
move. -/
def c9_lex_tok (l : TSLexer) : TSLexer :=
  { l with token_start_position := l.current_position }

/-- A language with a grammar failure followed by a zero-arity reduce cycle:
state 0 shifts token 1 to state 5; state 5 errors on token 1 but shifts the
error symbol to state 7; state 7 reduces symbol 2 with zero children on both
the token and the reduced symbol, forever. -/
def langC9 : TSLanguage :=
  { symbol_count := 4,
    parse_table := fun st sym =>
      if st = 0 ∧ sym = 1 then TSParseAction.shift 5
      else if st = 5 ∧ sym = 0 then TSParseAction.shift 7
      else if st = 7 ∧ (sym = 1 ∨ sym = 2) then TSParseAction.reduce 2 0
      else TSParseAction.error,
    lex_states := fun _ => 0, hidden_symbol_flags := fun _ => false,
    lex_fn := fun l _ =>
      if l.current_position.chars < l.input.chars.length then
        (c9_lex_adv l, sampleLeaf 1 1)
      else (c9_lex_tok l, sampleLeaf 3 0) }

/-- The lexer at the start of the `langC9` run on the two-character input. -/
def c9_lexer0 : TSLexer :=
  { input := ⟨['a', 'a']⟩, current_position := ts_length_zero,
    token_start_position := ts_length_zero }

/-- The lexer after one token of the `langC9` run. -/
def c9_lexer1 : TSLexer :=
  { input := ⟨['a', 'a']⟩, current_position := ⟨1, 1⟩,
    token_start_position := ⟨0, 0⟩ }

/-- The lexer after two tokens of the `langC9` run. -/
def c9_lexer2 : TSLexer :=
  { input := ⟨['a', 'a']⟩, current_position := ⟨2, 2⟩,
    token_start_position := ⟨1, 1⟩ }

/-- The node the `langC9` cycle keeps reducing to. -/
def c9_node2 : TSTree := ts_tree_make_node 2 [] false

/-- The `langC9` run, state 0: fresh parser on the input. -/
def c9_p0 : TSParser :=
  { language := langC9, stack := [], lexer := c9_lexer0,
    lookahead := none, next_lookahead := none, debug := false }

/-- The `langC9` run after the first shift. -/
def c9_p1 : TSParser :=
  { language := langC9, stack := [⟨5, sampleLeaf 1 1⟩], lexer := c9_lexer1,
    lookahead := none, next_lookahead := none, debug := false }

/-- The `langC9` run after recovery succeeded on the second token (which,
resized, is the top of the stack AND still the pending lookahead). -/
def c9_p3 : TSParser :=
  { language := langC9, stack := [⟨7, sampleLeaf 1 0⟩, ⟨5, sampleLeaf 1 1⟩],
    lexer := c9_lexer2, lookahead := some (sampleLeaf 1 0),
    next_lookahead := none, debug := false }

/-- The `langC9` run after the first zero-arity reduction. -/
def c9_p4 : TSParser :=
  { c9_p3 with lookahead := some c9_node2, next_lookahead := some (sampleLeaf 1 0) }

/-- The fixed point of the `langC9` run. -/
def c9_p5 : TSParser :=
  { c9_p3 with lookahead := some c9_node2, next_lookahead := some c9_node2 }

/-- C9 is false as stated: on `langC9` the input draws an Error action (a
grammar failure), recovery succeeds — and then the zero-arity reduce cycle
keeps the loop from ever returning, so no tree (null or not) is produced. -/
theorem C9_counterexample :
    action_for langC9 5 1 = TSParseAction.error ∧
    ¬ parse_returns (ts_parser_make langC9) ⟨['a', 'a']⟩ none := by
  refine ⟨rfl, ?_⟩
  intro h
  obtain ⟨steps, rfuel, bfuel, r, hr⟩ := h
  have hinit : ts_parser_parse steps rfuel bfuel (ts_parser_make langC9)
      ⟨['a', 'a']⟩ none = parse_loop rfuel steps c9_p0 := rfl
  rw [hinit] at hr
  cases rfuel with
  | zero =>
    have hrun : parse_loop 0 steps c9_p0 = none := by
      match steps with
      | 0 => rfl
      | 1 => rfl
      | (m + 2) => rfl
    rw [hrun] at hr
    exact Option.noConfusion hr
  | succ k =>
    have hstep5 : parse_step (k + 1) c9_p5 = StepResult.next c9_p5 := rfl
    have habs : ∀ m, parse_loop (k + 1) m c9_p5 = none := by
      intro m
      induction m with
      | zero => rfl
      | succ m ihm =>
        simp only [parse_loop, hstep5]
        exact ihm
    have hrun : parse_loop (k + 1) steps c9_p0 = none := by
      match steps with
      | 0 => rfl
      | 1 => rfl
      | 2 => rfl
      | 3 => rfl
      | (m + 4) =>
        rw [show parse_loop (k + 1) (m + 4) c9_p0 = parse_loop (k + 1) m c9_p5
          from rfl]
        exact habs m
    rw [hrun] at hr
    exact Option.noConfusion hr

/-- Witness for the amended C9: on the all-Error sample table (no
unrecognized action types anywhere), no parse call returns the null tree. -/
theorem C9_null_only_on_unknown_witness :
    (∀ st sym, (ts_parser_make sampleLang).language.parse_table st sym ≠
      TSParseAction.unknown) ∧
    (∀ (steps rfuel bfuel : Nat),
      ts_parser_parse steps rfuel bfuel (ts_parser_make sampleLang) ⟨[]⟩ none ≠
        some none) :=
  ⟨fun _ _ h => TSParseAction.noConfusion h,
   C9_null_only_on_unknown (ts_parser_make sampleLang) ⟨[]⟩ none
     (fun _ _ h => TSParseAction.noConfusion h)⟩
